import Mathlib

/-!
Verification of the `rust_urlencoding` library (src/lib.rs): percent-encoding
and decoding per RFC 3986's unreserved-character rule set.

Strings are modelled as `List Char` (Rust `&str` is a sequence of unicode
scalar values); the UTF-8 byte view used by `data.as_bytes()` / `data.bytes()`
is recovered by `strBytes`, and `char_indices` byte offsets are tracked
explicitly by the validator.  Machine bytes are `Nat` values `< 256`.
Rust panics (`unwrap` on `None`/`Err`) are modelled by `Option`:
`decode s = none` means the Rust code would panic on `s`.
-/

namespace Urlenc

/-- UTF-8 encoding of a unicode scalar value `n` (the bytes Rust's `&str`
stores for one `char`). -/
def utf8EncodeChar (n : Nat) : List Nat :=
  if n < 0x80 then [n]
  else if n < 0x800 then [0xC0 + n / 64, 0x80 + n % 64]
  else if n < 0x10000 then [0xE0 + n / 4096, 0x80 + n / 64 % 64, 0x80 + n % 64]
  else [0xF0 + n / 262144, 0x80 + n / 4096 % 64, 0x80 + n / 64 % 64, 0x80 + n % 64]

/-- The UTF-8 byte representation of a string: model of `data.as_bytes()` /
`data.bytes()` for a Rust `&str`. -/
def strBytes (s : List Char) : List Nat :=
  s.flatMap (fun c => utf8EncodeChar c.toNat)

/-- The unreserved-character test shared by encoder, validator and decoder:
the match arm `'A'...'Z' | 'a'...'z' | '0'...'9' | '-' | '_' | '.' | '~'`
from src/lib.rs, on the code point / byte value. -/
def isUnreserved (n : Nat) : Bool :=
  (65 ≤ n && n ≤ 90) || (97 ≤ n && n ≤ 122) || (48 ≤ n && n ≤ 57) ||
  n == 45 || n == 95 || n == 46 || n == 126

/-- Model of Rust `char::to_digit(16)`: the numeric value of a hexadecimal
digit character, `none` for any other character. -/
def charToDigit16 (c : Char) : Option Nat :=
  if 48 ≤ c.toNat ∧ c.toNat ≤ 57 then some (c.toNat - 48)
  else if 97 ≤ c.toNat ∧ c.toNat ≤ 102 then some (c.toNat - 87)
  else if 65 ≤ c.toNat ∧ c.toNat ≤ 70 then some (c.toNat - 55)
  else none

/-- Model of Rust `c.is_digit(16)` used by `validate_percent_encoding`. -/
def isHexDigitChar (c : Char) : Bool :=
  (charToDigit16 c).isSome

/-- The uppercase hexadecimal digit for `n < 16`, as produced by
`format!("%\x7b:02X\x7d", b)`. -/
def hexDigitUpper (n : Nat) : Char :=
  if n < 10 then Char.ofNat (48 + n) else Char.ofNat (55 + n)

/-- The lowercase hexadecimal digit for `n < 16` (never produced by `encode`;
used to state case-insensitivity of the decoder). -/
def hexDigitLower (n : Nat) : Char :=
  if n < 10 then Char.ofNat (48 + n) else Char.ofNat (87 + n)

/-- Model of `encode` (src/lib.rs lines 4-16): iterate over the UTF-8 bytes
of the input, pushing unreserved bytes through unchanged and expanding every
other byte into `%` plus two uppercase hex digits. -/
def encode (data : List Char) : List Char :=
  (strBytes data).foldl
    (fun escaped b =>
      if isUnreserved b then escaped ++ [Char.ofNat b]
      else escaped ++ ['%', hexDigitUpper (b / 16), hexDigitUpper (b % 16)])
    []

/-- The spec's description of the encoder output for one byte: the byte
itself when unreserved, otherwise `%` plus its two-digit uppercase hex
value. -/
def encodeByteSpec (b : Nat) : List Char :=
  if isUnreserved b then [Char.ofNat b]
  else ['%', hexDigitUpper (b / 16), hexDigitUpper (b % 16)]

/-- The spec's description of `encode`: the concatenation, over the UTF-8
bytes of the input in order, of `encodeByteSpec`. -/
def encodeSpec (data : List Char) : List Char :=
  (strBytes data).flatMap encodeByteSpec

/-- Model of `FromUrlEncodingError` (src/lib.rs lines 88-92).
`Utf8CharacterError` wraps the byte buffer on which `String::from_utf8`
failed (the payload of Rust's `FromUtf8Error`). -/
inductive FromUrlEncodingError where
  | UriCharacterError (character : Char) (index : Nat)
  | Utf8CharacterError (bytes : List Nat)
deriving DecidableEq, Repr

/-- Model of `validate_percent_encoding` (src/lib.rs lines 67-86): check that
the next two characters of the iterator are hex digits.  The Rust iterator
state is `(iter, offset)`: the remaining characters and the byte offset of the
next one (`char_indices` yields byte offsets).  `current_idx` is the offset of
the `'%'` that triggered the call.  On success the advanced iterator state is
returned. -/
def validate_percent_encoding (iter : List Char) (offset : Nat) (current_idx : Nat) :
    Except FromUrlEncodingError (List Char × Nat) :=
  match iter with
  | [] => .error (.UriCharacterError '%' current_idx)
  | c1 :: rest1 =>
    if isHexDigitChar c1 then
      match rest1 with
      | [] => .error (.UriCharacterError '%' current_idx)
      | c2 :: rest2 =>
        if isHexDigitChar c2 then
          .ok (rest2, offset + (utf8EncodeChar c1.toNat).length + (utf8EncodeChar c2.toNat).length)
        else .error (.UriCharacterError c2 (offset + (utf8EncodeChar c1.toNat).length))
    else .error (.UriCharacterError c1 offset)

/-- The `while let` loop of `validate_urlencoded_str` (src/lib.rs lines
47-63), scanning the `char_indices` iterator state `(s, idx)`; the call to
`validate_percent_encoding` is inlined here (see
`validateLoop_percent_eq` below for the connection to the helper). -/
def validateLoop : List Char → Nat → Except FromUrlEncodingError Unit
  | [], _ => .ok ()
  | c :: rest, idx =>
    if isUnreserved c.toNat then
      validateLoop rest (idx + (utf8EncodeChar c.toNat).length)
    else if c = '%' then
      match rest with
      | [] => .error (.UriCharacterError '%' idx)
      | c1 :: rest1 =>
        if isHexDigitChar c1 then
          match rest1 with
          | [] => .error (.UriCharacterError '%' idx)
          | c2 :: rest2 =>
            if isHexDigitChar c2 then
              validateLoop rest2
                (idx + 1 + (utf8EncodeChar c1.toNat).length + (utf8EncodeChar c2.toNat).length)
            else .error (.UriCharacterError c2 (idx + 1 + (utf8EncodeChar c1.toNat).length))
        else .error (.UriCharacterError c1 (idx + 1))
    else .error (.UriCharacterError c idx)

/-- Model of `validate_urlencoded_str` (src/lib.rs lines 47-63). -/
def validate_urlencoded_str (data : List Char) : Except FromUrlEncodingError Unit :=
  validateLoop data 0

/-- The spec's reading of the validator, tracking the character index
(one per character examined) instead of the byte offset that Rust's
`char_indices` yields.  Same scan structure as `validateLoop`. -/
def validateCharsLoop : List Char → Nat → Except FromUrlEncodingError Unit
  | [], _ => .ok ()
  | c :: rest, idx =>
    if isUnreserved c.toNat then
      validateCharsLoop rest (idx + 1)
    else if c = '%' then
      match rest with
      | [] => .error (.UriCharacterError '%' idx)
      | c1 :: rest1 =>
        if isHexDigitChar c1 then
          match rest1 with
          | [] => .error (.UriCharacterError '%' idx)
          | c2 :: rest2 =>
            if isHexDigitChar c2 then validateCharsLoop rest2 (idx + 3)
            else .error (.UriCharacterError c2 (idx + 2))
        else .error (.UriCharacterError c1 (idx + 1))
    else .error (.UriCharacterError c idx)

/-- The character-index validator run from position 0. -/
def validate_urlencoded_chars (data : List Char) : Except FromUrlEncodingError Unit :=
  validateCharsLoop data 0

/-- Strip the optional leading `'+'` sign accepted by `from_str_radix`. -/
def stripPlus : List Char → List Char
  | '+' :: rest => rest
  | s => s

/-- One step of `from_str_radix`: fail if the accumulator already failed or
the character is not a digit, otherwise accumulate with a `u8` overflow
check. -/
def radixStep (acc : Option Nat) (c : Char) : Option Nat :=
  match acc with
  | none => none
  | some a =>
    (charToDigit16 c).bind (fun d => if a * 16 + d ≤ 255 then some (a * 16 + d) else none)

/-- Model of Rust `u8::from_str_radix(s, 16)`: an optional leading `'+'` sign,
then at least one hex digit, accumulated with a `u8` overflow check;
`none` models `Err` (so an `unwrap` on it panics). -/
def u8_from_str_radix16 (s : List Char) : Option Nat :=
  if (stripPlus s).isEmpty then none
  else (stripPlus s).foldl radixStep (some 0)

/-- Strict UTF-8 decoding of a byte sequence: model of Rust
`String::from_utf8` (rejecting overlong forms, surrogates and values above
U+10FFFF); `none` models `Err(FromUtf8Error)`. -/
def utf8Decode : List Nat → Option (List Char)
  | [] => some []
  | b :: rest =>
    if b < 0x80 then (utf8Decode rest).map (fun cs => Char.ofNat b :: cs)
    else
      match rest with
      | [] => none
      | b1 :: rest1 =>
        if 0xC2 ≤ b ∧ b ≤ 0xDF then
          if 0x80 ≤ b1 ∧ b1 ≤ 0xBF then
            (utf8Decode rest1).map (fun cs => Char.ofNat ((b - 0xC0) * 64 + (b1 - 0x80)) :: cs)
          else none
        else
          match rest1 with
          | [] => none
          | b2 :: rest2 =>
            if 0xE0 ≤ b ∧ b ≤ 0xEF then
              if ((if b = 0xE0 then 0xA0 ≤ b1 ∧ b1 ≤ 0xBF
                   else if b = 0xED then 0x80 ≤ b1 ∧ b1 ≤ 0x9F
                   else 0x80 ≤ b1 ∧ b1 ≤ 0xBF) ∧ 0x80 ≤ b2 ∧ b2 ≤ 0xBF) then
                (utf8Decode rest2).map
                  (fun cs => Char.ofNat ((b - 0xE0) * 4096 + (b1 - 0x80) * 64 + (b2 - 0x80)) :: cs)
              else none
            else
              match rest2 with
              | [] => none
              | b3 :: rest3 =>
                if 0xF0 ≤ b ∧ b ≤ 0xF4 then
                  if ((if b = 0xF0 then 0x90 ≤ b1 ∧ b1 ≤ 0xBF
                       else if b = 0xF4 then 0x80 ≤ b1 ∧ b1 ≤ 0x8F
                       else 0x80 ≤ b1 ∧ b1 ≤ 0xBF) ∧
                      0x80 ≤ b2 ∧ b2 ≤ 0xBF ∧ 0x80 ≤ b3 ∧ b3 ≤ 0xBF) then
                    (utf8Decode rest3).map
                      (fun cs => Char.ofNat ((b - 0xF0) * 262144 + (b1 - 0x80) * 4096 +
                                             (b2 - 0x80) * 64 + (b3 - 0x80)) :: cs)
                  else none
                else none

/-- Outcome of the byte-reconstruction `while let` loop of `decode`
(src/lib.rs lines 25-37): `ok` = the loop ran off the end of the iterator,
`broke` = the defensive `_ => break` arm fired, `panicked` = one of the
`unwrap` calls in the `'%'` arm failed. -/
inductive LoopOutcome where
  | ok (out : List Nat)
  | broke (out : List Nat)
  | panicked
deriving DecidableEq, Repr

/-- `unescaped_bytes.push b` at the head of the rest of the loop: prepend a
byte to the bytes the loop still produces, whatever its outcome. -/
def consOutcome (b : Nat) : LoopOutcome → LoopOutcome
  | .ok out => .ok (b :: out)
  | .broke out => .broke (b :: out)
  | .panicked => .panicked

/-- The byte-reconstruction loop of `decode` (src/lib.rs lines 25-37),
running over the UTF-8 bytes of the input. -/
def decodeLoop : List Nat → LoopOutcome
  | [] => .ok []
  | b :: rest =>
    if isUnreserved b then consOutcome b (decodeLoop rest)
    else if b = 37 then
      match rest with
      | [] => .panicked
      | b1 :: rest1 =>
        match rest1 with
        | [] => .panicked
        | b2 :: rest2 =>
          match utf8Decode [b1, b2] with
          | none => .panicked
          | some hexStr =>
            match u8_from_str_radix16 hexStr with
            | none => .panicked
            | some v => consOutcome v (decodeLoop rest2)
    else .broke []

/-- Model of `decode` (src/lib.rs lines 18-42): validate, then reconstruct
bytes, then reinterpret them as UTF-8.  The outer `Option` models panics:
`none` means an `unwrap` in the loop would panic. -/
def decode (data : List Char) : Option (Except FromUrlEncodingError (List Char)) :=
  match validate_urlencoded_str data with
  | .error e => some (.error e)
  | .ok _ =>
    match decodeLoop (strBytes data) with
    | .panicked => none
    | .ok bs =>
      match utf8Decode bs with
      | some cs => some (.ok cs)
      | none => some (.error (.Utf8CharacterError bs))
    | .broke bs =>
      match utf8Decode bs with
      | some cs => some (.ok cs)
      | none => some (.error (.Utf8CharacterError bs))

/-- The spec's description of the bytes the decoder's second pass
reconstructs on a validated input: each unreserved character contributes its
own code point as a byte, each `%`-triplet contributes the byte its two hex
digits denote. -/
def decodedBytesSpec : List Char → List Nat
  | [] => []
  | c :: rest =>
    if c = '%' then
      match rest with
      | c1 :: c2 :: rest2 =>
        (((charToDigit16 c1).getD 0) * 16 + (charToDigit16 c2).getD 0) :: decodedBytesSpec rest2
      | _ => []
    else c.toNat :: decodedBytesSpec rest

deriving instance DecidableEq for Except

example : encode "this that".data = "this%20that".data := by decide
example : decode "this%20that".data = some (.ok "this that".data) := by decide
example : encode "👾 Exterminate!".data = "%F0%9F%91%BE%20Exterminate%21".data := by decide
example : decode "%F0%9F%91%BE%20Exterminate%21".data = some (.ok "👾 Exterminate!".data) := by
  decide
example : decode "this%2that".data = some (.error (.UriCharacterError 't' 6)) := by decide
example : decode "this%20that%".data = some (.error (.UriCharacterError '%' 11)) := by decide
example : decode "this%20that%2".data = some (.error (.UriCharacterError '%' 11)) := by decide
example : decode "👾 Exterminate!".data = some (.error (.UriCharacterError '👾' 0)) := by decide
example : decode "%F0".data = some (.error (.Utf8CharacterError [240])) := by decide
example : decode "".data = some (.ok "".data) := by decide

/-- The inlined `'%'` arm of `validateLoop` is exactly a call to
`validate_percent_encoding` on the iterator past the `'%'`, followed by the
loop on the state the helper returns. -/
theorem validateLoop_percent_eq (rest : List Char) (idx : Nat) :
    validateLoop ('%' :: rest) idx =
      match validate_percent_encoding rest (idx + 1) idx with
      | .error e => .error e
      | .ok (rest2, off2) => validateLoop rest2 off2 := by
  have ht : ('%').toNat = 37 := rfl
  have h37 : isUnreserved 37 = false := by decide
  have hl : utf8EncodeChar 37 = [37] := by decide
  match rest with
  | [] => rfl
  | c1 :: rest1 =>
    by_cases h1 : isHexDigitChar c1 = true
    · match rest1 with
      | [] => simp [validateLoop, validate_percent_encoding, h1, ht, h37, hl]
      | c2 :: rest2 =>
        by_cases h2 : isHexDigitChar c2 = true
        · simp [validateLoop, validate_percent_encoding, h1, h2, ht, h37, hl]
        · simp [validateLoop, validate_percent_encoding, h1, h2, ht, h37, hl]
    · rw [validateLoop.eq_def]
      simp [validate_percent_encoding, h1, ht, h37, hl]

/-- `Char.toNat` inverts `Char.ofNat` on valid code points. -/
theorem toNat_ofNat_valid (n : Nat) (h : n.isValidChar) : (Char.ofNat n).toNat = n := by
  unfold Char.ofNat
  rw [dif_pos h]
  rfl

/-- Every `Char` carries a valid unicode scalar value. -/
theorem char_valid_nat (c : Char) :
    c.toNat < 0xD800 ∨ (0xDFFF < c.toNat ∧ c.toNat < 0x110000) := c.valid

theorem utf8EncodeChar_ascii {n : Nat} (h : n < 0x80) : utf8EncodeChar n = [n] := by
  unfold utf8EncodeChar
  rw [if_pos h]

theorem utf8EncodeChar_lt256 {n : Nat} (hn : n < 0x110000) :
    ∀ b ∈ utf8EncodeChar n, b < 256 := by
  intro b hb
  unfold utf8EncodeChar at hb
  split at hb
  · simp at hb; omega
  · split at hb
    · simp at hb; rcases hb with h | h <;> omega
    · split at hb
      · simp at hb; rcases hb with h | h | h <;> omega
      · simp at hb; rcases hb with h | h | h | h <;> omega

/-- One-byte (ASCII) case of the UTF-8 round trip. -/
theorem utf8Decode_enc_one (n : Nat) (k : List Nat) (h : n < 0x80) :
    utf8Decode (utf8EncodeChar n ++ k) =
      (utf8Decode k).map (fun cs => Char.ofNat n :: cs) := by
  rw [utf8EncodeChar_ascii h]
  show utf8Decode (n :: k) = _
  rw [utf8Decode.eq_def]
  simp only []
  rw [if_pos h]

/-- Two-byte case of the UTF-8 round trip. -/
theorem utf8Decode_enc_two (n : Nat) (k : List Nat) (h1 : 0x80 ≤ n) (h2 : n < 0x800) :
    utf8Decode (utf8EncodeChar n ++ k) =
      (utf8Decode k).map (fun cs => Char.ofNat n :: cs) := by
  have e : utf8EncodeChar n = [0xC0 + n / 64, 0x80 + n % 64] := by
    unfold utf8EncodeChar
    rw [if_neg (by omega), if_pos h2]
  rw [e]
  show utf8Decode ((0xC0 + n / 64) :: (0x80 + n % 64) :: k) = _
  rw [utf8Decode.eq_def]
  simp only []
  rw [if_neg (by omega), if_pos (by omega : 0xC2 ≤ 0xC0 + n / 64 ∧ 0xC0 + n / 64 ≤ 0xDF),
    if_pos (by omega : 0x80 ≤ 0x80 + n % 64 ∧ 0x80 + n % 64 ≤ 0xBF)]
  simp only [show (0xC0 + n / 64 - 0xC0) * 64 + (0x80 + n % 64 - 0x80) = n by omega]

/-- Three-byte case of the UTF-8 round trip (surrogates excluded). -/
theorem utf8Decode_enc_three (n : Nat) (k : List Nat) (h1 : 0x800 ≤ n) (h2 : n < 0x10000)
    (hs : n < 0xD800 ∨ 0xDFFF < n) :
    utf8Decode (utf8EncodeChar n ++ k) =
      (utf8Decode k).map (fun cs => Char.ofNat n :: cs) := by
  have e : utf8EncodeChar n = [0xE0 + n / 4096, 0x80 + n / 64 % 64, 0x80 + n % 64] := by
    unfold utf8EncodeChar
    rw [if_neg (by omega), if_neg (by omega), if_pos h2]
  rw [e]
  show utf8Decode ((0xE0 + n / 4096) :: (0x80 + n / 64 % 64) :: (0x80 + n % 64) :: k) = _
  rw [utf8Decode.eq_def]
  simp only []
  rw [if_neg (by omega), if_neg (by omega),
    if_pos (by omega : 0xE0 ≤ 0xE0 + n / 4096 ∧ 0xE0 + n / 4096 ≤ 0xEF)]
  have hcond : ((if 0xE0 + n / 4096 = 0xE0 then
        0xA0 ≤ 0x80 + n / 64 % 64 ∧ 0x80 + n / 64 % 64 ≤ 0xBF
      else if 0xE0 + n / 4096 = 0xED then
        0x80 ≤ 0x80 + n / 64 % 64 ∧ 0x80 + n / 64 % 64 ≤ 0x9F
      else 0x80 ≤ 0x80 + n / 64 % 64 ∧ 0x80 + n / 64 % 64 ≤ 0xBF) ∧
      0x80 ≤ 0x80 + n % 64 ∧ 0x80 + n % 64 ≤ 0xBF) := by
    refine ⟨?_, by omega, by omega⟩
    by_cases hA : 0xE0 + n / 4096 = 0xE0
    · rw [if_pos hA]; omega
    · rw [if_neg hA]
      by_cases hB : 0xE0 + n / 4096 = 0xED
      · rw [if_pos hB]; omega
      · rw [if_neg hB]; omega
  rw [if_pos hcond]
  simp only [show (0xE0 + n / 4096 - 0xE0) * 4096 + (0x80 + n / 64 % 64 - 0x80) * 64 +
      (0x80 + n % 64 - 0x80) = n by omega]

/-- Four-byte case of the UTF-8 round trip. -/
theorem utf8Decode_enc_four (n : Nat) (k : List Nat) (h1 : 0x10000 ≤ n) (h2 : n < 0x110000) :
    utf8Decode (utf8EncodeChar n ++ k) =
      (utf8Decode k).map (fun cs => Char.ofNat n :: cs) := by
  have e : utf8EncodeChar n =
      [0xF0 + n / 262144, 0x80 + n / 4096 % 64, 0x80 + n / 64 % 64, 0x80 + n % 64] := by
    unfold utf8EncodeChar
    rw [if_neg (by omega), if_neg (by omega), if_neg (by omega)]
  rw [e]
  show utf8Decode ((0xF0 + n / 262144) :: (0x80 + n / 4096 % 64) ::
    (0x80 + n / 64 % 64) :: (0x80 + n % 64) :: k) = _
  rw [utf8Decode.eq_def]
  simp only []
  rw [if_neg (by omega), if_neg (by omega), if_neg (by omega),
    if_pos (by omega : 0xF0 ≤ 0xF0 + n / 262144 ∧ 0xF0 + n / 262144 ≤ 0xF4)]
  have hcond : ((if 0xF0 + n / 262144 = 0xF0 then
        0x90 ≤ 0x80 + n / 4096 % 64 ∧ 0x80 + n / 4096 % 64 ≤ 0xBF
      else if 0xF0 + n / 262144 = 0xF4 then
        0x80 ≤ 0x80 + n / 4096 % 64 ∧ 0x80 + n / 4096 % 64 ≤ 0x8F
      else 0x80 ≤ 0x80 + n / 4096 % 64 ∧ 0x80 + n / 4096 % 64 ≤ 0xBF) ∧
      0x80 ≤ 0x80 + n / 64 % 64 ∧ 0x80 + n / 64 % 64 ≤ 0xBF ∧
      0x80 ≤ 0x80 + n % 64 ∧ 0x80 + n % 64 ≤ 0xBF) := by
    refine ⟨?_, by omega, by omega, by omega, by omega⟩
    by_cases hA : 0xF0 + n / 262144 = 0xF0
    · rw [if_pos hA]; omega
    · rw [if_neg hA]
      by_cases hB : 0xF0 + n / 262144 = 0xF4
      · rw [if_pos hB]; omega
      · rw [if_neg hB]; omega
  rw [if_pos hcond]
  simp only [show (0xF0 + n / 262144 - 0xF0) * 262144 + (0x80 + n / 4096 % 64 - 0x80) * 4096 +
      (0x80 + n / 64 % 64 - 0x80) * 64 + (0x80 + n % 64 - 0x80) = n by omega]

/-- UTF-8 round trip for one character in front of arbitrary bytes. -/
theorem utf8Decode_encodeChar (c : Char) (k : List Nat) :
    utf8Decode (utf8EncodeChar c.toNat ++ k) = (utf8Decode k).map (fun cs => c :: cs) := by
  have hv := char_valid_nat c
  have hc : Char.ofNat c.toNat = c := Char.ofNat_toNat c
  rcases Nat.lt_or_ge c.toNat 0x80 with h | h
  · rw [utf8Decode_enc_one _ _ h, hc]
  · rcases Nat.lt_or_ge c.toNat 0x800 with h8 | h8
    · rw [utf8Decode_enc_two _ _ h h8, hc]
    · rcases Nat.lt_or_ge c.toNat 0x10000 with h16 | h16
      · rw [utf8Decode_enc_three _ _ h8 h16 (by omega), hc]
      · rw [utf8Decode_enc_four _ _ h16 (by omega), hc]

/-- `String::from_utf8` inverts UTF-8 encoding: decoding the byte view of any
string gives back the string. -/
theorem utf8Decode_strBytes (s : List Char) : utf8Decode (strBytes s) = some s := by
  induction s with
  | nil => rfl
  | cons c rest ih =>
    show utf8Decode (utf8EncodeChar c.toNat ++ strBytes rest) = _
    rw [utf8Decode_encodeChar, ih]
    rfl

theorem charToDigit16_lt16 {c : Char} {v : Nat} (h : charToDigit16 c = some v) : v < 16 := by
  unfold charToDigit16 at h
  split at h
  · simp at h; omega
  · split at h
    · simp at h; omega
    · split at h
      · simp at h; omega
      · simp at h

theorem charToDigit16_toNat_lt {c : Char} {v : Nat} (h : charToDigit16 c = some v) :
    c.toNat < 0x80 := by
  unfold charToDigit16 at h
  split at h
  · omega
  · split at h
    · omega
    · split at h
      · omega
      · simp at h

theorem isHexDigitChar_some {c : Char} (h : isHexDigitChar c = true) :
    ∃ v, charToDigit16 c = some v ∧ v < 16 := by
  unfold isHexDigitChar at h
  rcases Option.isSome_iff_exists.mp h with ⟨v, hv⟩
  exact ⟨v, hv, charToDigit16_lt16 hv⟩

theorem isUnreserved_lt {n : Nat} (h : isUnreserved n = true) : n < 0x80 := by
  unfold isUnreserved at h
  simp at h
  omega

theorem byte_isValidChar {b : Nat} (hb : b < 0xD800) : b.isValidChar := Or.inl hb

theorem toNat_ofNat_byte {b : Nat} (hb : b < 0xD800) : (Char.ofNat b).toNat = b :=
  toNat_ofNat_valid b (byte_isValidChar hb)

theorem hexDigitUpper_toNat {n : Nat} (h : n < 16) :
    (hexDigitUpper n).toNat = if n < 10 then 48 + n else 55 + n := by
  unfold hexDigitUpper
  split
  · rw [toNat_ofNat_byte (by omega)]
  · rw [toNat_ofNat_byte (by omega)]

theorem hexDigitLower_toNat {n : Nat} (h : n < 16) :
    (hexDigitLower n).toNat = if n < 10 then 48 + n else 87 + n := by
  unfold hexDigitLower
  split
  · rw [toNat_ofNat_byte (by omega)]
  · rw [toNat_ofNat_byte (by omega)]

theorem charToDigit16_hexUpper {n : Nat} (h : n < 16) :
    charToDigit16 (hexDigitUpper n) = some n := by
  by_cases h10 : n < 10
  · have ht : (hexDigitUpper n).toNat = 48 + n := by rw [hexDigitUpper_toNat h, if_pos h10]
    unfold charToDigit16
    rw [ht, if_pos (by omega)]
    congr 1
    omega
  · have ht : (hexDigitUpper n).toNat = 55 + n := by rw [hexDigitUpper_toNat h, if_neg h10]
    unfold charToDigit16
    rw [ht, if_neg (by omega), if_neg (by omega), if_pos (by omega)]
    congr 1
    omega

theorem charToDigit16_hexLower {n : Nat} (h : n < 16) :
    charToDigit16 (hexDigitLower n) = some n := by
  by_cases h10 : n < 10
  · have ht : (hexDigitLower n).toNat = 48 + n := by rw [hexDigitLower_toNat h, if_pos h10]
    unfold charToDigit16
    rw [ht, if_pos (by omega)]
    congr 1
    omega
  · have ht : (hexDigitLower n).toNat = 87 + n := by rw [hexDigitLower_toNat h, if_neg h10]
    unfold charToDigit16
    rw [ht, if_neg (by omega), if_pos (by omega)]
    congr 1
    omega

theorem stripPlus_of_head_ne {c : Char} {cs : List Char} (h : c ≠ ('+')) :
    stripPlus (c :: cs) = c :: cs := by
  unfold stripPlus
  split
  · rename_i heq
    simp at heq
    exact absurd heq.1 h
  · rfl

theorem u8_from_str_radix16_two {c1 c2 : Char} {v1 v2 : Nat}
    (h1 : charToDigit16 c1 = some v1) (h2 : charToDigit16 c2 = some v2) :
    u8_from_str_radix16 [c1, c2] = some (v1 * 16 + v2) := by
  have hb1 := charToDigit16_lt16 h1
  have hb2 := charToDigit16_lt16 h2
  have hplus : charToDigit16 ('+') = none := by decide
  have hne : c1 ≠ ('+') := by
    intro he
    rw [he, hplus] at h1
    exact Option.noConfusion h1
  unfold u8_from_str_radix16
  rw [stripPlus_of_head_ne hne]
  rw [if_neg (by simp)]
  simp only [List.foldl_cons, List.foldl_nil]
  rw [show radixStep (some 0) c1 = some v1 by
    unfold radixStep
    rw [h1]
    simp only [Option.some_bind]
    rw [if_pos (by omega)]
    congr 1
    omega]
  rw [show radixStep (some v1) c2 = some (v1 * 16 + v2) by
    unfold radixStep
    rw [h2]
    simp only [Option.some_bind]
    rw [if_pos (by omega)]]
theorem utf8Decode_two_ascii {a b : Nat} (ha : a < 0x80) (hb : b < 0x80) :
    utf8Decode [a, b] = some [Char.ofNat a, Char.ofNat b] := by
  have h1 : utf8Decode [b] = some [Char.ofNat b] := by
    have h := utf8Decode_enc_one b [] hb
    rw [utf8EncodeChar_ascii hb] at h
    simpa using h
  have h := utf8Decode_enc_one a [b] ha
  rw [utf8EncodeChar_ascii ha] at h
  simpa [h1] using h

theorem decodeLoop_unres {b : Nat} (h : isUnreserved b = true) (L : List Nat) :
    decodeLoop (b :: L) = consOutcome b (decodeLoop L) := by
  rw [decodeLoop.eq_def]
  simp [h]

theorem decodeLoop_percent {a b : Nat} {v1 v2 : Nat} (L : List Nat)
    (ha : a < 0x80) (hb : b < 0x80)
    (e1 : charToDigit16 (Char.ofNat a) = some v1)
    (e2 : charToDigit16 (Char.ofNat b) = some v2) :
    decodeLoop (37 :: a :: b :: L) = consOutcome (v1 * 16 + v2) (decodeLoop L) := by
  have h37 : isUnreserved 37 = false := by decide
  rw [decodeLoop.eq_def]
  simp only [h37, Bool.false_eq_true, if_false, if_pos rfl]
  rw [utf8Decode_two_ascii ha hb]
  simp [u8_from_str_radix16_two e1 e2]

theorem hexChar_ascii {c : Char} (h : isHexDigitChar c = true) : c.toNat < 0x80 := by
  obtain ⟨v, hv, _⟩ := isHexDigitChar_some h
  exact charToDigit16_toNat_lt hv

theorem utf8Len_one {c : Char} (h : c.toNat < 0x80) :
    (utf8EncodeChar c.toNat).length = 1 := by
  rw [utf8EncodeChar_ascii h]
  rfl

theorem percent_not_unres : isUnreserved ('%').toNat = false := by decide

theorem unres37 : isUnreserved 37 = false := by decide

/-- The byte-offset validator and the character-index validator agree on
every input and start offset: every character scanned before an error (or
before success) is ASCII, so byte offsets and character indices coincide
throughout the scan. -/
theorem validateLoop_eq_chars (s : List Char) (idx : Nat) :
    validateLoop s idx = validateCharsLoop s idx := by
  induction s, idx using validateLoop.induct with
  | case1 idx => rfl
  | case2 c rest idx hc ih =>
    have hlen := utf8Len_one (isUnreserved_lt hc)
    rw [hlen] at ih
    have h1 : validateLoop (c :: rest) idx = validateLoop rest (idx + 1) := by
      rw [validateLoop.eq_def]
      simp [hc, hlen]
    have h2 : validateCharsLoop (c :: rest) idx = validateCharsLoop rest (idx + 1) := by
      rw [validateCharsLoop.eq_def]
      simp [hc]
    rw [h1, h2, ih]
  | case3 idx hnu =>
    rw [validateLoop.eq_def, validateCharsLoop.eq_def]
    simp [percent_not_unres, unres37]
  | case4 idx c2 hhex hnu =>
    rw [validateLoop.eq_def, validateCharsLoop.eq_def]
    simp [percent_not_unres, unres37, hhex]
  | case5 idx c2 hhex1 c2p rest2 hhex2 hnu ih =>
    have hl1 := utf8Len_one (hexChar_ascii hhex1)
    have hl2 := utf8Len_one (hexChar_ascii hhex2)
    have harith : idx + 1 + 1 + 1 = idx + 3 := by omega
    rw [hl1, hl2, harith] at ih
    have h1 : validateLoop ('%' :: c2 :: c2p :: rest2) idx = validateLoop rest2 (idx + 3) := by
      rw [validateLoop.eq_def]
      simp [percent_not_unres, unres37, hhex1, hhex2, hl1, hl2]
    have h2 : validateCharsLoop ('%' :: c2 :: c2p :: rest2) idx =
        validateCharsLoop rest2 (idx + 3) := by
      rw [validateCharsLoop.eq_def]
      simp [percent_not_unres, unres37, hhex1, hhex2]
    rw [h1, h2, ih]
  | case6 idx c2 hhex1 c2p rest2 hhex2 hnu =>
    have hl1 := utf8Len_one (hexChar_ascii hhex1)
    rw [validateLoop.eq_def, validateCharsLoop.eq_def]
    simp [percent_not_unres, unres37, hhex1, hhex2, hl1]
  | case7 idx c2 rest2 hhex hnu =>
    rw [validateLoop.eq_def, validateCharsLoop.eq_def]
    simp [percent_not_unres, unres37, hhex]
  | case8 c rest idx hnu hne =>
    rw [validateLoop.eq_def, validateCharsLoop.eq_def]
    simp [hnu, hne]

/-- The two validator entry points agree. -/
theorem validate_str_eq_chars (data : List Char) :
    validate_urlencoded_str data = validate_urlencoded_chars data :=
  validateLoop_eq_chars data 0

theorem strBytes_cons (c : Char) (rest : List Char) :
    strBytes (c :: rest) = utf8EncodeChar c.toNat ++ strBytes rest := rfl

theorem strBytes_lt256 (s : List Char) : ∀ b ∈ strBytes s, b < 256 := by
  intro b hb
  unfold strBytes at hb
  rw [List.mem_flatMap] at hb
  obtain ⟨c, _, hbc⟩ := hb
  have hv : c.toNat < 0x110000 := by
    rcases char_valid_nat c with h | h <;> omega
  exact utf8EncodeChar_lt256 hv b hbc

/-- Scanning a validated prefix then more input: the character-index
validator resumes after the prefix at the prefix's length. -/
theorem validateCharsLoop_append (r : List Char) (p : List Char) (idx : Nat) :
    validateCharsLoop p idx = .ok () →
    validateCharsLoop (p ++ r) idx = validateCharsLoop r (idx + p.length) := by
  induction p, idx using validateCharsLoop.induct with
  | case1 idx =>
    intro _
    simp
  | case2 c rest idx hc ih =>
    intro h
    have h' : validateCharsLoop rest (idx + 1) = .ok () := by
      rw [validateCharsLoop.eq_def] at h
      simpa [hc] using h
    have hstep : validateCharsLoop ((c :: rest) ++ r) idx =
        validateCharsLoop (rest ++ r) (idx + 1) := by
      rw [validateCharsLoop.eq_def]
      simp [hc]
    rw [hstep, ih h']
    congr 1
    simp
    omega
  | case3 idx hnu =>
    intro h
    rw [validateCharsLoop.eq_def] at h
    simp [percent_not_unres, unres37] at h
  | case4 idx c2 hhex hnu =>
    intro h
    rw [validateCharsLoop.eq_def] at h
    simp [percent_not_unres, unres37, hhex] at h
  | case5 idx c2 hhex1 c2p rest2 hhex2 hnu ih =>
    intro h
    have h' : validateCharsLoop rest2 (idx + 3) = .ok () := by
      rw [validateCharsLoop.eq_def] at h
      simpa [percent_not_unres, unres37, hhex1, hhex2] using h
    have hstep : validateCharsLoop (('%' :: c2 :: c2p :: rest2) ++ r) idx =
        validateCharsLoop (rest2 ++ r) (idx + 3) := by
      rw [validateCharsLoop.eq_def]
      simp [percent_not_unres, unres37, hhex1, hhex2]
    rw [hstep, ih h']
    congr 1
    simp
    omega
  | case6 idx c2 hhex1 c2p rest2 hhex2 hnu =>
    intro h
    rw [validateCharsLoop.eq_def] at h
    simp [percent_not_unres, unres37, hhex1, hhex2] at h
  | case7 idx c2 rest2 hhex hnu =>
    intro h
    rw [validateCharsLoop.eq_def] at h
    simp [percent_not_unres, unres37, hhex] at h
  | case8 c rest idx hnu hne =>
    intro h
    rw [validateCharsLoop.eq_def] at h
    simp [hnu, hne] at h

theorem decodedBytesSpec_cons_ne {c : Char} (h : c ≠ ('%')) (rest : List Char) :
    decodedBytesSpec (c :: rest) = c.toNat :: decodedBytesSpec rest := by
  rw [decodedBytesSpec.eq_def]
  simp [h]

theorem decodedBytesSpec_percent (c1 c2 : Char) (rest : List Char) :
    decodedBytesSpec ('%' :: c1 :: c2 :: rest) =
      ((charToDigit16 c1).getD 0 * 16 + (charToDigit16 c2).getD 0) :: decodedBytesSpec rest := by
  rw [decodedBytesSpec.eq_def]
  simp

/-- On any input the character-index validator accepts, the decoder's second
pass completes normally (no break, no panic) and produces exactly the bytes
described by `decodedBytesSpec`. -/
theorem charsOk_decodeLoop (s : List Char) (idx : Nat) :
    validateCharsLoop s idx = .ok () →
    decodeLoop (strBytes s) = .ok (decodedBytesSpec s) := by
  induction s, idx using validateCharsLoop.induct with
  | case1 idx =>
    intro _
    rfl
  | case2 c rest idx hc ih =>
    intro h
    have h' : validateCharsLoop rest (idx + 1) = .ok () := by
      rw [validateCharsLoop.eq_def] at h
      simpa [hc] using h
    have ha := isUnreserved_lt hc
    have hsb : strBytes (c :: rest) = c.toNat :: strBytes rest := by
      rw [strBytes_cons, utf8EncodeChar_ascii ha]
      rfl
    have hne : c ≠ '%' := by
      intro he
      rw [he, percent_not_unres] at hc
      exact Bool.noConfusion hc
    rw [hsb, decodeLoop_unres hc, ih h', decodedBytesSpec_cons_ne hne]
    simp [consOutcome]
  | case3 idx hnu =>
    intro h
    rw [validateCharsLoop.eq_def] at h
    simp [percent_not_unres, unres37] at h
  | case4 idx c2 hhex hnu =>
    intro h
    rw [validateCharsLoop.eq_def] at h
    simp [percent_not_unres, unres37, hhex] at h
  | case5 idx c2 hhex1 c2p rest2 hhex2 hnu ih =>
    intro h
    have h' : validateCharsLoop rest2 (idx + 3) = .ok () := by
      rw [validateCharsLoop.eq_def] at h
      simpa [percent_not_unres, unres37, hhex1, hhex2] using h
    obtain ⟨v1, e1, hv1⟩ := isHexDigitChar_some hhex1
    obtain ⟨v2, e2, hv2⟩ := isHexDigitChar_some hhex2
    have ha1 : c2.toNat < 0x80 := charToDigit16_toNat_lt e1
    have ha2 : c2p.toNat < 0x80 := charToDigit16_toNat_lt e2
    have hsb : strBytes ('%' :: c2 :: c2p :: rest2) =
        37 :: c2.toNat :: c2p.toNat :: strBytes rest2 := by
      rw [strBytes_cons, strBytes_cons, strBytes_cons,
        utf8EncodeChar_ascii ha1, utf8EncodeChar_ascii ha2]
      rfl
    have he1 : charToDigit16 (Char.ofNat c2.toNat) = some v1 := by
      rw [Char.ofNat_toNat]
      exact e1
    have he2 : charToDigit16 (Char.ofNat c2p.toNat) = some v2 := by
      rw [Char.ofNat_toNat]
      exact e2
    rw [hsb, decodeLoop_percent _ ha1 ha2 he1 he2, ih h', decodedBytesSpec_percent]
    simp [e1, e2, consOutcome]
  | case6 idx c2 hhex1 c2p rest2 hhex2 hnu =>
    intro h
    rw [validateCharsLoop.eq_def] at h
    simp [percent_not_unres, unres37, hhex1, hhex2] at h
  | case7 idx c2 rest2 hhex hnu =>
    intro h
    rw [validateCharsLoop.eq_def] at h
    simp [percent_not_unres, unres37, hhex] at h
  | case8 c rest idx hnu hne =>
    intro h
    rw [validateCharsLoop.eq_def] at h
    simp [hnu, hne] at h

theorem foldl_push_eq_append (L : List Nat) :
    ∀ a : List Char,
      L.foldl (fun escaped b =>
        if isUnreserved b then escaped ++ [Char.ofNat b]
        else escaped ++ ['%', hexDigitUpper (b / 16), hexDigitUpper (b % 16)]) a =
      a ++ L.flatMap encodeByteSpec := by
  induction L with
  | nil =>
    intro a
    simp
  | cons b L ih =>
    intro a
    rw [List.foldl_cons, List.flatMap_cons, ih]
    by_cases hb : isUnreserved b = true
    · simp [hb, encodeByteSpec]
    · simp [hb, encodeByteSpec]

/-- The encoder is exactly the spec's byte-by-byte concatenation. -/
theorem encode_eq_encodeSpec (s : List Char) : encode s = encodeSpec s := by
  unfold encode encodeSpec
  rw [foldl_push_eq_append]
  simp

theorem isHexDigitChar_hexUpper {n : Nat} (h : n < 16) :
    isHexDigitChar (hexDigitUpper n) = true := by
  unfold isHexDigitChar
  rw [charToDigit16_hexUpper h]
  rfl

theorem validateCharsLoop_encodeByte {b : Nat} (hb : b < 256) (idx : Nat) :
    validateCharsLoop (encodeByteSpec b) idx = .ok () := by
  by_cases h : isUnreserved b = true
  · have ht : (Char.ofNat b).toNat = b := toNat_ofNat_byte (by omega)
    unfold encodeByteSpec
    rw [if_pos h, validateCharsLoop.eq_def]
    simp [ht, h, validateCharsLoop]
  · have h1 : isHexDigitChar (hexDigitUpper (b / 16)) = true :=
      isHexDigitChar_hexUpper (by omega)
    have h2 : isHexDigitChar (hexDigitUpper (b % 16)) = true :=
      isHexDigitChar_hexUpper (by omega)
    unfold encodeByteSpec
    rw [if_neg h, validateCharsLoop.eq_def]
    simp [percent_not_unres, unres37, h1, h2, validateCharsLoop]

theorem validateChars_flatMap (L : List Nat) :
    (∀ b ∈ L, b < 256) → ∀ idx, validateCharsLoop (L.flatMap encodeByteSpec) idx = .ok () := by
  induction L with
  | nil =>
    intro _ idx
    rfl
  | cons b L ih =>
    intro hb idx
    rw [List.flatMap_cons,
      validateCharsLoop_append _ _ _ (validateCharsLoop_encodeByte (hb b (by simp)) idx)]
    exact ih (fun x hx => hb x (by simp [hx])) _

/-- The encoder's output always passes the character-index validator. -/
theorem validateChars_encode (s : List Char) :
    validate_urlencoded_chars (encode s) = .ok () := by
  unfold validate_urlencoded_chars
  rw [encode_eq_encodeSpec]
  unfold encodeSpec
  exact validateChars_flatMap _ (strBytes_lt256 s) 0

theorem strBytes_append (xs ys : List Char) :
    strBytes (xs ++ ys) = strBytes xs ++ strBytes ys := by
  unfold strBytes
  exact List.flatMap_append xs ys _

theorem decodeLoop_flatMap_encode (L : List Nat) :
    (∀ b ∈ L, b < 256) → decodeLoop (strBytes (L.flatMap encodeByteSpec)) = .ok L := by
  induction L with
  | nil =>
    intro _
    rfl
  | cons b L ih =>
    intro hb
    have hblt : b < 256 := hb b (by simp)
    have ihL := ih (fun x hx => hb x (by simp [hx]))
    rw [List.flatMap_cons, strBytes_append]
    by_cases h : isUnreserved b = true
    · have hlt : b < 0x80 := isUnreserved_lt h
      have h1 : strBytes (encodeByteSpec b) = [b] := by
        unfold encodeByteSpec
        rw [if_pos h]
        show utf8EncodeChar (Char.ofNat b).toNat ++ [] = [b]
        rw [toNat_ofNat_byte (by omega), utf8EncodeChar_ascii hlt]
        rfl
      rw [h1]
      show decodeLoop (b :: strBytes (L.flatMap encodeByteSpec)) = _
      rw [decodeLoop_unres h, ihL]
      rfl
    · have e1 : charToDigit16 (hexDigitUpper (b / 16)) = some (b / 16) :=
        charToDigit16_hexUpper (by omega)
      have e2 : charToDigit16 (hexDigitUpper (b % 16)) = some (b % 16) :=
        charToDigit16_hexUpper (by omega)
      have hta : (hexDigitUpper (b / 16)).toNat < 0x80 := by
        rw [hexDigitUpper_toNat (by omega)]
        split <;> omega
      have htb : (hexDigitUpper (b % 16)).toNat < 0x80 := by
        rw [hexDigitUpper_toNat (by omega)]
        split <;> omega
      have h1 : strBytes (encodeByteSpec b) =
          [37, (hexDigitUpper (b / 16)).toNat, (hexDigitUpper (b % 16)).toNat] := by
        unfold encodeByteSpec
        rw [if_neg h]
        show utf8EncodeChar ('%').toNat ++ (utf8EncodeChar (hexDigitUpper (b / 16)).toNat ++
          (utf8EncodeChar (hexDigitUpper (b % 16)).toNat ++ [])) = _
        rw [utf8EncodeChar_ascii hta, utf8EncodeChar_ascii htb]
        rfl
      rw [h1]
      have he1 : charToDigit16 (Char.ofNat (hexDigitUpper (b / 16)).toNat) = some (b / 16) := by
        rw [Char.ofNat_toNat]
        exact e1
      have he2 : charToDigit16 (Char.ofNat (hexDigitUpper (b % 16)).toNat) = some (b % 16) := by
        rw [Char.ofNat_toNat]
        exact e2
      show decodeLoop (37 :: (hexDigitUpper (b / 16)).toNat :: (hexDigitUpper (b % 16)).toNat ::
        strBytes (L.flatMap encodeByteSpec)) = _
      rw [decodeLoop_percent _ hta htb he1 he2, ihL]
      have : b / 16 * 16 + b % 16 = b := by omega
      rw [this]
      rfl

/-- Decoding inverts encoding: the loop on the encoder's output reproduces
exactly the UTF-8 bytes of the original string. -/
theorem decodeLoop_encode (s : List Char) :
    decodeLoop (strBytes (encode s)) = .ok (strBytes s) := by
  rw [encode_eq_encodeSpec]
  unfold encodeSpec
  exact decodeLoop_flatMap_encode _ (strBytes_lt256 s)

/-- C1: for every text `s`, `decode (encode s)` succeeds and the result
equals `s` (decode is a left inverse of encode on all inputs). -/
theorem C1_decode_encode_roundtrip (s : List Char) :
    decode (encode s) = some (Except.ok s) := by
  unfold decode
  have hv : validate_urlencoded_str (encode s) = .ok () := by
    rw [validate_str_eq_chars]
    exact validateChars_encode s
  rw [hv, decodeLoop_encode]
  simp [utf8Decode_strBytes]

/-- C2: whenever `decode` fails with an invalid-character error, the reported
index equals the zero-based character (code point) position of the offending
character — the character-index validator reports exactly the same error. -/
theorem C2_error_index_is_char_index (s : List Char) (c : Char) (i : Nat)
    (h : decode s = some (Except.error (.UriCharacterError c i))) :
    validate_urlencoded_chars s = Except.error (.UriCharacterError c i) := by
  rw [← validate_str_eq_chars]
  unfold decode at h
  cases hv : validate_urlencoded_str s with
  | error e =>
    rw [hv] at h
    simp at h
    rw [h]
  | ok u =>
    exfalso
    cases u
    have hq : validate_urlencoded_chars s = .ok () := by
      rw [← validate_str_eq_chars]
      exact hv
    rw [hv, charsOk_decodeLoop s 0 hq] at h
    simp at h
    cases hu : utf8Decode (decodedBytesSpec s) <;> rw [hu] at h <;> simp at h

/-- C2 witness: the spec's emoji scenario, applied through the theorem. -/
theorem C2_witness :
    decode "👾 Exterminate!".data =
      some (Except.error (.UriCharacterError '👾' 0)) ∧
    validate_urlencoded_chars "👾 Exterminate!".data =
      Except.error (.UriCharacterError '👾' 0) :=
  ⟨by decide, C2_error_index_is_char_index _ _ _ (by decide)⟩

/-- C3: for every text `s`, `encode s` contains only unreserved characters
and well-formed percent-triplets: it is always accepted by the validator. -/
theorem C3_encode_validates (s : List Char) :
    validate_urlencoded_str (encode s) = Except.ok () := by
  rw [validate_str_eq_chars]
  exact validateChars_encode s

/-- C4: `encode` is exactly the concatenation, over the UTF-8 bytes of the
input in order, of the byte itself when unreserved and otherwise `%` plus
its two-digit uppercase hex value; it is total (no error path). -/
theorem C4_encode_byte_concatenation (s : List Char) : encode s = encodeSpec s :=
  encode_eq_encodeSpec s

/-- C5 counterexample: `"%:"` ends with `'%'` plus exactly one character and
its prefix (empty) is valid, yet decode reports the `':'` at index 1, not
the `'%'` at index 0 — the claim as stated is false. -/
theorem C5_counterexample :
    decode ['%', ':'] = some (Except.error (.UriCharacterError ':' 1)) ∧
    decode ['%', ':'] ≠ some (Except.error (.UriCharacterError '%' 0)) := by
  decide

/-- C5 (amended): for every input that ends with a `'%'` followed by fewer
than two characters — a bare trailing `'%'`, or `'%'` plus one character
that is a hex digit — after an otherwise valid prefix, decode fails with an
invalid-character error whose character is `'%'` and whose index is the
position of that `'%'` itself. -/
theorem C5_trailing_percent (p t : List Char)
    (hp : validate_urlencoded_str p = Except.ok ())
    (ht : t = [] ∨ ∃ d, t = [d] ∧ isHexDigitChar d = true) :
    decode (p ++ '%' :: t) =
      some (Except.error (.UriCharacterError '%' p.length)) := by
  have hchars : validate_urlencoded_chars p = .ok () := by
    rw [← validate_str_eq_chars]
    exact hp
  have hv : validate_urlencoded_chars (p ++ '%' :: t) =
      .error (.UriCharacterError '%' p.length) := by
    unfold validate_urlencoded_chars at hchars ⊢
    rw [validateCharsLoop_append _ _ _ hchars]
    rcases ht with rfl | ⟨d, rfl, hd⟩
    · rw [validateCharsLoop.eq_def]
      simp [percent_not_unres, unres37]
    · rw [validateCharsLoop.eq_def]
      simp [percent_not_unres, unres37, hd]
  have hv' : validate_urlencoded_str (p ++ '%' :: t) =
      .error (.UriCharacterError '%' p.length) := by
    rw [validate_str_eq_chars]
    exact hv
  unfold decode
  rw [hv']

/-- C5 witness: the spec's own scenario `decode "this%20that%2"`, obtained
through the amended theorem. -/
theorem C5_witness :
    validate_urlencoded_str "this%20that".data = Except.ok () ∧
    isHexDigitChar '2' = true ∧
    decode ("this%20that".data ++ '%' :: ['2']) =
      some (Except.error (.UriCharacterError '%' ("this%20that".data).length)) :=
  ⟨by decide, by decide, C5_trailing_percent _ _ (by decide) (Or.inr ⟨'2', rfl, by decide⟩)⟩

/-- C6: when validation fails, decode returns the validator's error
unchanged and performs no decoding. -/
theorem C6_error_propagation (s : List Char) (e : FromUrlEncodingError)
    (h : validate_urlencoded_str s = Except.error e) :
    decode s = some (Except.error e) := by
  unfold decode
  rw [h]

/-- C6 witness. -/
theorem C6_witness :
    validate_urlencoded_str "this%2that".data =
      Except.error (.UriCharacterError 't' 6) ∧
    decode "this%2that".data = some (Except.error (.UriCharacterError 't' 6)) :=
  ⟨by decide, C6_error_propagation _ _ (by decide)⟩

/-- C7: on every input the validator accepts, the second pass reconstructs
exactly the spec's bytes, and decode fails with the UTF-8-reconstruction
error wrapping that byte buffer when it is not valid UTF-8, and otherwise
returns the reconstructed text. -/
theorem C7_utf8_reconstruction (s : List Char)
    (h : validate_urlencoded_str s = Except.ok ()) :
    decodeLoop (strBytes s) = LoopOutcome.ok (decodedBytesSpec s) ∧
    decode s = some (match utf8Decode (decodedBytesSpec s) with
      | some cs => Except.ok cs
      | none => Except.error (.Utf8CharacterError (decodedBytesSpec s))) := by
  have hq : validate_urlencoded_chars s = .ok () := by
    rw [← validate_str_eq_chars]
    exact h
  have hloop := charsOk_decodeLoop s 0 hq
  refine ⟨hloop, ?_⟩
  unfold decode
  rw [h, hloop]
  cases hu : utf8Decode (decodedBytesSpec s) <;> simp [hu]

/-- C7 witness: `"%F0"` validates, its triplet decodes to the lone byte 240,
which is not valid UTF-8, so decode fails with the UTF-8 error. -/
theorem C7_witness :
    validate_urlencoded_str "%F0".data = Except.ok () ∧
    decodeLoop (strBytes "%F0".data) = LoopOutcome.ok (decodedBytesSpec "%F0".data) ∧
    decode "%F0".data = some (match utf8Decode (decodedBytesSpec "%F0".data) with
      | some cs => Except.ok cs
      | none => Except.error (.Utf8CharacterError (decodedBytesSpec "%F0".data))) :=
  ⟨by decide, (C7_utf8_reconstruction _ (by decide)).1, (C7_utf8_reconstruction _ (by decide)).2⟩

/-- C8: hex digits of a percent-triplet are matched case-insensitively: each
of `0-9`, `a-f`, `A-F` is accepted with the same value, and `"%2f"` and
`"%2F"` decode to the same byte. -/
theorem C8_hex_case_insensitive :
    (∀ n : Nat, n < 16 →
      charToDigit16 (hexDigitLower n) = some n ∧
      charToDigit16 (hexDigitUpper n) = some n ∧
      isHexDigitChar (hexDigitLower n) = true ∧
      isHexDigitChar (hexDigitUpper n) = true) ∧
    decode "%2f".data = some (Except.ok ['/']) ∧
    decode "%2F".data = some (Except.ok ['/']) := by
  refine ⟨?_, by decide, by decide⟩
  intro n hn
  refine ⟨charToDigit16_hexLower hn, charToDigit16_hexUpper hn, ?_,
    isHexDigitChar_hexUpper hn⟩
  unfold isHexDigitChar
  rw [charToDigit16_hexLower hn]
  rfl

/-- C8 witness. -/
theorem C8_witness :
    15 < 16 ∧
    charToDigit16 (hexDigitLower 15) = some 15 ∧
    charToDigit16 (hexDigitUpper 15) = some 15 ∧
    isHexDigitChar (hexDigitLower 15) = true ∧
    isHexDigitChar (hexDigitUpper 15) = true :=
  ⟨by decide, C8_hex_case_insensitive.1 15 (by decide)⟩

/-- C9: decode never panics — its model is never `none` — and on every
validated input the second pass ends in the normal `ok` outcome: the
defensive break branch and the panicking unwraps are unreachable. -/
theorem C9_no_panic (s : List Char) :
    decode s ≠ none ∧
    (validate_urlencoded_str s = Except.ok () →
      decodeLoop (strBytes s) = LoopOutcome.ok (decodedBytesSpec s)) := by
  constructor
  · unfold decode
    cases hv : validate_urlencoded_str s with
    | error e => simp
    | ok u =>
      cases u
      have hq : validate_urlencoded_chars s = .ok () := by
        rw [← validate_str_eq_chars]
        exact hv
      simp only [charsOk_decodeLoop s 0 hq]
      cases utf8Decode (decodedBytesSpec s) <;> simp
  · intro h
    have hq : validate_urlencoded_chars s = .ok () := by
      rw [← validate_str_eq_chars]
      exact h
    exact charsOk_decodeLoop s 0 hq

/-- C9 witness. -/
theorem C9_witness :
    validate_urlencoded_str "this%20that".data = Except.ok () ∧
    decode "this%20that".data ≠ none ∧
    decodeLoop (strBytes "this%20that".data) =
      LoopOutcome.ok (decodedBytesSpec "this%20that".data) :=
  ⟨by decide, (C9_no_panic _).1, (C9_no_panic _).2 (by decide)⟩

/-- C10: encode is not a left inverse of decode: `"%2f"` is accepted by
decode (lowercase hex), but re-encoding the result yields `"%2F"`, which
differs from the input. -/
theorem C10_not_left_inverse :
    decode "%2f".data = some (Except.ok ['/']) ∧
    encode ['/'] = "%2F".data ∧
    encode ['/'] ≠ "%2f".data := by
  decide

end Urlenc
